import Mathlib

/-!
Verification of the `multi_reader` library (`src/lib.rs`), a composite
reader that chains an iterator of underlying readers into one stream.

The embedding is faithful to the Rust source:

* A Rust reader of type `R` with `fn read(&mut self, buf: &mut [u8]) ->
  io::Result<usize>` is modelled as a state type `σ` together with a
  function `rd : σ → List Nat → σ × List Nat × Except ε Nat`: the reader
  state after the call, the buffer contents after the call, and the
  result (byte count or error).  The state and the buffer are returned
  even on the error path, because a Rust reader may well mutate itself
  before failing (the test reader `MaybeErrReader` increments its
  `read_no` counter before returning the error).
* A Rust `Iterator<Item = R>` with `fn next(&mut self) -> Option<R>` is
  modelled as a state type `ι` with `next : ι → Option σ × ι`.
* `MultiReader { readers, current }` is the struct from the source.
* The `loop` inside `Read::read` may run forever on an infinite iterator
  of empty readers, so it is embedded with explicit fuel; `none` means
  the fuel ran out.  For list-backed iterators we prove that
  `readers.length + 2` units of fuel always suffice.
-/

set_option maxRecDepth 40000

instance {ε α : Type} [DecidableEq ε] [DecidableEq α] : DecidableEq (Except ε α) :=
  fun a b =>
    match a, b with
    | .ok x, .ok y => decidable_of_iff (x = y) (by simp)
    | .ok _, .error _ => isFalse (fun h => by cases h)
    | .error _, .ok _ => isFalse (fun h => by cases h)
    | .error x, .error y => decidable_of_iff (x = y) (by simp)

/-- The `MultiReader<R, I>` struct of `src/lib.rs`: the not-yet-consumed
iterator `readers` and the optional `current` reader. -/
structure MultiReader (σ ι : Type) where
  readers : ι
  current : Option σ
  deriving Repr, DecidableEq

/-- `MultiReader::new`: pull one element from the iterator eagerly to
populate `current`, keep the advanced iterator as `readers`. -/
def MultiReader.new {σ ι : Type} (next : ι → Option σ × ι) (readers : ι) :
    MultiReader σ ι :=
  match next readers with
  | (c, it) => ⟨it, c⟩

/-- Everything one call of `MultiReader::read` produces, plus
instrumentation counters used only to state theorems:
`reads` counts the underlying `r.read(buf)` calls performed,
`pulls` counts the `self.readers.next()` calls performed, and
`zeroSkips` counts the underlying reads that returned `Ok(0)`. -/
structure ReadOutcome (σ ι ε : Type) where
  state : MultiReader σ ι
  buf : List Nat
  result : Except ε Nat
  reads : Nat
  pulls : Nat
  zeroSkips : Nat
  deriving Repr, DecidableEq

/-- The `loop` body of `<MultiReader as Read>::read` (src/lib.rs lines
41-54), with fuel bounding the number of loop iterations:

```text
loop {
    match self.current {
        Some(ref mut r) => {
            let n = try!(r.read(buf));
            if n > 0 { return Ok(n); }
        }
        None => return Ok(0),
    }
    self.current = self.readers.next();
}
```

`none` is returned exactly when the fuel is exhausted before the loop
returns. -/
def readLoop {σ ι ε : Type} (rd : σ → List Nat → σ × List Nat × Except ε Nat)
    (next : ι → Option σ × ι) :
    Nat → MultiReader σ ι → List Nat → Option (ReadOutcome σ ι ε)
  | 0, _, _ => none
  | fuel + 1, m, buf =>
    match m.current with
    | none => some ⟨m, buf, .ok 0, 0, 0, 0⟩
    | some r =>
      match rd r buf with
      | (r', buf', .error e) => some ⟨⟨m.readers, some r'⟩, buf', .error e, 1, 0, 0⟩
      | (r', buf', .ok n) =>
        if 0 < n then
          some ⟨⟨m.readers, some r'⟩, buf', .ok n, 1, 0, 0⟩
        else
          match next m.readers with
          | (c, it) =>
            match readLoop rd next fuel ⟨it, c⟩ buf' with
            | none => none
            | some o => some ⟨o.state, o.buf, o.result, o.reads + 1, o.pulls + 1, o.zeroSkips + 1⟩

/-- The list-backed iterator: `vec![...].into_iter()` as used by every
test in the source.  `next` yields the head and keeps the tail. -/
def listNext {α : Type} (l : List α) : Option α × List α :=
  (l.head?, l.tail)

/-- A canonical in-memory byte source (the shape of `io::repeat(b).take(k)`
from the tests): its state is the list of bytes it still holds.  A read
copies `min buf.len content.len` bytes into the front of the buffer,
leaves the rest of the buffer untouched, and never fails.  In particular
it returns `Ok(0)` on a zero-length buffer, like standard readers. -/
def bsRead (s buf : List Nat) : List Nat × List Nat × Except String Nat :=
  let n := min buf.length s.length
  (s.drop n, s.take n ++ buf.drop n, .ok n)

/-- The bytes the composite reader still has to deliver: the content of
the current source followed by the contents of the queued sources. -/
def stream (m : MultiReader (List Nat) (List (List Nat))) : List Nat :=
  (m.current.getD []) ++ m.readers.flatten

/-- Reachability invariant of the byte-source instantiation: `current`
is `None` only once the source list has been fully consumed. -/
def wfState {σ : Type} (m : MultiReader σ (List σ)) : Prop :=
  m.current = none → m.readers = []

/-! ### Single-step unfolding lemmas for `readLoop` -/

lemma readLoop_drained {σ ι ε : Type} (rd : σ → List Nat → σ × List Nat × Except ε Nat)
    (next : ι → Option σ × ι) (fuel : Nat) (m : MultiReader σ ι) (buf : List Nat)
    (hcur : m.current = none) (hfuel : 1 ≤ fuel) :
    readLoop rd next fuel m buf = some ⟨m, buf, .ok 0, 0, 0, 0⟩ := by
  cases fuel with
  | zero => omega
  | succ f => simp [readLoop, hcur]

lemma readLoop_error_step {σ ι ε : Type} (rd : σ → List Nat → σ × List Nat × Except ε Nat)
    (next : ι → Option σ × ι) (fuel : Nat) (m : MultiReader σ ι) (buf : List Nat)
    (r r' : σ) (buf' : List Nat) (e : ε)
    (hcur : m.current = some r) (hrd : rd r buf = (r', buf', .error e)) (hfuel : 1 ≤ fuel) :
    readLoop rd next fuel m buf = some ⟨⟨m.readers, some r'⟩, buf', .error e, 1, 0, 0⟩ := by
  cases fuel with
  | zero => omega
  | succ f => simp [readLoop, hcur, hrd]

lemma readLoop_pos_step {σ ι ε : Type} (rd : σ → List Nat → σ × List Nat × Except ε Nat)
    (next : ι → Option σ × ι) (fuel : Nat) (m : MultiReader σ ι) (buf : List Nat)
    (r r' : σ) (buf' : List Nat) (n : Nat)
    (hcur : m.current = some r) (hrd : rd r buf = (r', buf', .ok n)) (hn : 0 < n)
    (hfuel : 1 ≤ fuel) :
    readLoop rd next fuel m buf = some ⟨⟨m.readers, some r'⟩, buf', .ok n, 1, 0, 0⟩ := by
  cases fuel with
  | zero => omega
  | succ f => simp [readLoop, hcur, hrd, hn]

lemma readLoop_zero_step {σ ι ε : Type} (rd : σ → List Nat → σ × List Nat × Except ε Nat)
    (next : ι → Option σ × ι) (fuel : Nat) (m : MultiReader σ ι) (buf : List Nat)
    (r r' : σ) (buf' : List Nat)
    (hcur : m.current = some r) (hrd : rd r buf = (r', buf', .ok 0)) :
    readLoop rd next (fuel + 1) m buf =
      (readLoop rd next fuel (MultiReader.new next m.readers) buf').map
        (fun o => ⟨o.state, o.buf, o.result, o.reads + 1, o.pulls + 1, o.zeroSkips + 1⟩) := by
  simp only [readLoop, hcur, hrd]
  rcases hn : next m.readers with ⟨c, it⟩
  simp only [MultiReader.new, hn, Nat.lt_irrefl, if_false]
  cases readLoop rd next fuel ⟨it, c⟩ buf' <;> rfl

/-! ### Generic facts about the read loop -/

/-- A call that returns `Ok(0)` can only have done so from the `None`
branch of the match, so the returned state is drained. -/
lemma readLoop_ok_zero_drains {σ ι ε : Type} (rd : σ → List Nat → σ × List Nat × Except ε Nat)
    (next : ι → Option σ × ι) :
    ∀ (fuel : Nat) (m : MultiReader σ ι) (buf : List Nat) (o : ReadOutcome σ ι ε),
      readLoop rd next fuel m buf = some o → o.result = .ok 0 → o.state.current = none := by
  intro fuel
  induction fuel with
  | zero => intro m buf o h; simp [readLoop] at h
  | succ f ih =>
    intro m buf o h hres
    rcases hcur : m.current with _ | r
    · rw [readLoop_drained rd next (f + 1) m buf hcur (by omega)] at h
      obtain rfl := Option.some.inj h
      exact hcur
    · rcases hrd : rd r buf with ⟨r', buf', res⟩
      cases res with
      | error e =>
        rw [readLoop_error_step rd next (f + 1) m buf r r' buf' e hcur hrd (by omega)] at h
        obtain rfl := Option.some.inj h
        simp at hres
      | ok n =>
        rcases Nat.eq_zero_or_pos n with rfl | hnpos
        · rw [readLoop_zero_step rd next f m buf r r' buf' hcur hrd] at h
          rcases h₀ : readLoop rd next f (MultiReader.new next m.readers) buf' with _ | o₀
          · rw [h₀] at h; simp at h
          · rw [h₀] at h
            obtain rfl := Option.some.inj h
            exact ih _ _ o₀ h₀ hres
        · rw [readLoop_pos_step rd next (f + 1) m buf r r' buf' n hcur hrd hnpos (by omega)] at h
          obtain rfl := Option.some.inj h
          simp at hres
          omega

/-- A call that returns `Ok(n)` with `n > 0` performed exactly one
underlying read beyond its zero-length skips: the successful non-empty
read is unique within the call. -/
lemma readLoop_pos_unique {σ ι ε : Type} (rd : σ → List Nat → σ × List Nat × Except ε Nat)
    (next : ι → Option σ × ι) :
    ∀ (fuel : Nat) (m : MultiReader σ ι) (buf : List Nat) (o : ReadOutcome σ ι ε) (n : Nat),
      readLoop rd next fuel m buf = some o → o.result = .ok n → 0 < n →
      o.reads = o.zeroSkips + 1 := by
  intro fuel
  induction fuel with
  | zero => intro m buf o n h; simp [readLoop] at h
  | succ f ih =>
    intro m buf o n h hres hn
    rcases hcur : m.current with _ | r
    · rw [readLoop_drained rd next (f + 1) m buf hcur (by omega)] at h
      obtain rfl := Option.some.inj h
      simp at hres
      omega
    · rcases hrd : rd r buf with ⟨r', buf', res⟩
      cases res with
      | error e =>
        rw [readLoop_error_step rd next (f + 1) m buf r r' buf' e hcur hrd (by omega)] at h
        obtain rfl := Option.some.inj h
        simp at hres
      | ok k =>
        rcases Nat.eq_zero_or_pos k with rfl | hkpos
        · rw [readLoop_zero_step rd next f m buf r r' buf' hcur hrd] at h
          rcases h₀ : readLoop rd next f (MultiReader.new next m.readers) buf' with _ | o₀
          · rw [h₀] at h; simp at h
          · rw [h₀] at h
            obtain rfl := Option.some.inj h
            have := ih _ _ o₀ n h₀ hres hn
            simp only [ReadOutcome.reads, ReadOutcome.zeroSkips] at *
            omega
        · rw [readLoop_pos_step rd next (f + 1) m buf r r' buf' k hcur hrd hkpos (by omega)] at h
          obtain rfl := Option.some.inj h
          rfl

/-- With a list-backed iterator the loop always terminates:
`readers.length + 2` units of fuel suffice for any reader
implementation, and the number of underlying reads performed is at most
the number of zero-length skips plus one. -/
lemma readLoop_list_total {σ ε : Type} (rd : σ → List Nat → σ × List Nat × Except ε Nat) :
    ∀ (l : List σ) (c : Option σ) (buf : List Nat) (fuel : Nat),
      l.length + 2 ≤ fuel →
      ∃ o, readLoop rd listNext fuel (⟨l, c⟩ : MultiReader σ (List σ)) buf = some o ∧
        o.reads ≤ o.zeroSkips + 1 := by
  intro l
  induction l with
  | nil =>
    intro c buf fuel hfuel
    obtain ⟨f, rfl⟩ : ∃ f, fuel = f + 1 := ⟨fuel - 1, by omega⟩
    rcases c with _ | r
    · exact ⟨_, readLoop_drained rd listNext (f + 1) ⟨[], none⟩ buf rfl (by omega), by simp⟩
    · rcases hrd : rd r buf with ⟨r', buf', res⟩
      cases res with
      | error e =>
        exact ⟨_, readLoop_error_step rd listNext (f + 1) ⟨[], some r⟩ buf r r' buf' e rfl hrd
          (by omega), by simp⟩
      | ok k =>
        rcases Nat.eq_zero_or_pos k with rfl | hkpos
        · rw [readLoop_zero_step rd listNext f ⟨[], some r⟩ buf r r' buf' rfl hrd]
          rw [readLoop_drained rd listNext f (MultiReader.new listNext ([] : List σ)) buf'
            rfl (by omega)]
          exact ⟨_, rfl, by simp⟩
        · exact ⟨_, readLoop_pos_step rd listNext (f + 1) ⟨[], some r⟩ buf r r' buf' k rfl hrd
            hkpos (by omega), by simp⟩
  | cons s₀ rest ih =>
    intro c buf fuel hfuel
    obtain ⟨f, rfl⟩ : ∃ f, fuel = f + 1 := ⟨fuel - 1, by omega⟩
    rcases c with _ | r
    · exact ⟨_, readLoop_drained rd listNext (f + 1) ⟨s₀ :: rest, none⟩ buf rfl (by omega),
        by simp⟩
    · rcases hrd : rd r buf with ⟨r', buf', res⟩
      cases res with
      | error e =>
        exact ⟨_, readLoop_error_step rd listNext (f + 1) ⟨s₀ :: rest, some r⟩ buf r r' buf' e
          rfl hrd (by omega), by simp⟩
      | ok k =>
        rcases Nat.eq_zero_or_pos k with rfl | hkpos
        · rw [readLoop_zero_step rd listNext f ⟨s₀ :: rest, some r⟩ buf r r' buf' rfl hrd]
          obtain ⟨o₀, h₀, hb₀⟩ := ih (some s₀) buf' f (by simp at hfuel ⊢; omega)
          have hnew : MultiReader.new listNext (s₀ :: rest) =
              (⟨rest, some s₀⟩ : MultiReader σ (List σ)) := rfl
          rw [hnew, h₀]
          exact ⟨_, rfl, by simp; omega⟩
        · exact ⟨_, readLoop_pos_step rd listNext (f + 1) ⟨s₀ :: rest, some r⟩ buf r r' buf' k
            rfl hrd hkpos (by omega), by simp⟩

/-! ### The read loop over in-memory byte sources -/

/-- If the remaining stream is non-empty and the buffer can hold at
least one byte, one read call skips the empty sources, delivers a
non-empty chunk of the stream into the front of the buffer, and leaves
exactly the rest of the stream queued. -/
lemma readLoop_bs_pos :
    ∀ (l : List (List Nat)) (c : Option (List Nat)) (buf : List Nat) (fuel : Nat),
      (c = none → l = []) → 1 ≤ buf.length →
      stream ⟨l, c⟩ ≠ [] → l.length + 2 ≤ fuel →
      ∃ o n, readLoop bsRead listNext fuel (⟨l, c⟩ : MultiReader (List Nat) (List (List Nat)))
          buf = some o ∧
        o.result = .ok n ∧ 0 < n ∧
        o.buf.take n = (stream ⟨l, c⟩).take n ∧
        stream o.state = (stream ⟨l, c⟩).drop n ∧
        o.state.readers.length ≤ l.length ∧
        ∃ s', o.state.current = some s' := by
  intro l
  induction l with
  | nil =>
    intro c buf fuel hwf hbuf hne hfuel
    rcases c with _ | s
    · exact absurd (by simp [stream]) hne
    · have hs : s ≠ [] := by simpa [stream] using hne
      set n := min buf.length s.length with hn
      have hnpos : 0 < n := by
        have : 0 < s.length := List.length_pos.mpr hs
        simp [hn]; omega
      have hns : n ≤ s.length := by omega
      have hrd : bsRead s buf = (s.drop n, s.take n ++ buf.drop n, .ok n) := rfl
      refine ⟨_, n, readLoop_pos_step bsRead listNext fuel ⟨[], some s⟩ buf s (s.drop n)
        (s.take n ++ buf.drop n) n rfl hrd hnpos (by omega), rfl, hnpos, ?_, ?_, by simp,
        ⟨s.drop n, rfl⟩⟩
      · simp only [stream, Option.getD_some, List.flatten_nil, List.append_nil]
        exact List.take_left' (by simp [List.length_take]; omega)
      · simp [stream, List.take_left']
  | cons s₀ rest ih =>
    intro c buf fuel hwf hbuf hne hfuel
    rcases c with _ | s
    · simp at hwf
    · obtain ⟨f, rfl⟩ : ∃ f, fuel = f + 1 := ⟨fuel - 1, by omega⟩
      by_cases hs : s = []
      · subst hs
        have hrd : bsRead [] buf = ([], buf, .ok 0) := by simp [bsRead]
        rw [readLoop_zero_step bsRead listNext f ⟨s₀ :: rest, some []⟩ buf [] [] buf rfl hrd]
        have hnew : MultiReader.new listNext (s₀ :: rest) =
            (⟨rest, some s₀⟩ : MultiReader (List Nat) (List (List Nat))) := rfl
        have hstr : stream ⟨rest, some s₀⟩ = stream ⟨s₀ :: rest, some []⟩ := by
          simp [stream]
        obtain ⟨o₀, n, h₀, hres, hnpos, hbuf₀, hstr₀, hlen₀, s', hcur₀⟩ :=
          ih (some s₀) buf f (fun h => Option.noConfusion h) hbuf
            (by rw [hstr]; exact hne) (by simp at hfuel ⊢; omega)
        rw [hnew, h₀]
        refine ⟨_, n, rfl, hres, hnpos, hbuf₀, ?_, by simpa using Nat.le_succ_of_le hlen₀,
          ⟨s', hcur₀⟩⟩
        rw [hstr₀, hstr]
      · have hslen : 0 < s.length := List.length_pos.mpr hs
        set n := min buf.length s.length with hn
        have hnpos : 0 < n := by simp [hn]; omega
        have hns : n ≤ s.length := by omega
        have hrd : bsRead s buf = (s.drop n, s.take n ++ buf.drop n, .ok n) := rfl
        refine ⟨_, n, readLoop_pos_step bsRead listNext (f + 1) ⟨s₀ :: rest, some s⟩ buf s
          (s.drop n) (s.take n ++ buf.drop n) n rfl hrd hnpos (by omega), rfl, hnpos, ?_, ?_,
          by simp, ⟨s.drop n, rfl⟩⟩
        · simp only [stream, Option.getD_some]
          rw [List.take_append_of_le_length hns]
          exact List.take_left' (by simp [List.length_take]; omega)
        · simp only [stream, Option.getD_some]
          rw [List.drop_append_of_le_length hns]

/-- If the remaining stream is empty, one read call drains the reader:
it returns `Ok(0)`, consumes the whole (all-empty) source list, and
leaves the buffer unchanged. -/
lemma readLoop_bs_empty :
    ∀ (l : List (List Nat)) (c : Option (List Nat)) (buf : List Nat) (fuel : Nat),
      (c = none → l = []) → stream ⟨l, c⟩ = [] → l.length + 2 ≤ fuel →
      ∃ o, readLoop bsRead listNext fuel (⟨l, c⟩ : MultiReader (List Nat) (List (List Nat)))
          buf = some o ∧
        o.result = .ok 0 ∧ o.state.current = none ∧ o.state.readers = [] ∧ o.buf = buf := by
  intro l
  induction l with
  | nil =>
    intro c buf fuel hwf hstr hfuel
    rcases c with _ | s
    · exact ⟨_, readLoop_drained bsRead listNext fuel ⟨[], none⟩ buf rfl (by omega),
        rfl, rfl, rfl, rfl⟩
    · have hs : s = [] := by simpa [stream] using hstr
      subst hs
      obtain ⟨f, rfl⟩ : ∃ f, fuel = f + 1 := ⟨fuel - 1, by omega⟩
      have hrd : bsRead [] buf = ([], buf, .ok 0) := by simp [bsRead]
      rw [readLoop_zero_step bsRead listNext f ⟨[], some []⟩ buf [] [] buf rfl hrd]
      rw [readLoop_drained bsRead listNext f (MultiReader.new listNext ([] : List (List Nat)))
        buf rfl (by omega)]
      exact ⟨_, rfl, rfl, rfl, rfl, rfl⟩
  | cons s₀ rest ih =>
    intro c buf fuel hwf hstr hfuel
    rcases c with _ | s
    · simp at hwf
    · have hs : s = [] ∧ s₀ = [] ∧ rest.flatten = [] := by
        simpa [stream, List.append_eq_nil] using hstr
      obtain ⟨rfl, hs₀, hrest⟩ := hs
      obtain ⟨f, rfl⟩ : ∃ f, fuel = f + 1 := ⟨fuel - 1, by omega⟩
      have hrd : bsRead [] buf = ([], buf, .ok 0) := by simp [bsRead]
      rw [readLoop_zero_step bsRead listNext f ⟨s₀ :: rest, some []⟩ buf [] [] buf rfl hrd]
      have hnew : MultiReader.new listNext (s₀ :: rest) =
          (⟨rest, some s₀⟩ : MultiReader (List Nat) (List (List Nat))) := rfl
      obtain ⟨o₀, h₀, hres, hcur₀, hrd₀, hbuf₀⟩ :=
        ih (some s₀) buf f (fun h => Option.noConfusion h)
          (by simp [stream, hs₀, hrest]) (by simp at hfuel ⊢; omega)
      rw [hnew, h₀]
      exact ⟨_, rfl, hres, hcur₀, hrd₀, hbuf₀⟩

/-- A read call with a zero-length buffer walks off the end of the
whole source list — every source reports a zero-length read into the
empty buffer and is dropped — and returns `Ok(0)` with the reader
drained, whatever bytes the sources still held. -/
lemma readLoop_bs_nilbuf :
    ∀ (l : List (List Nat)) (c : Option (List Nat)) (fuel : Nat),
      (c = none → l = []) → l.length + 2 ≤ fuel →
      ∃ o, readLoop bsRead listNext fuel (⟨l, c⟩ : MultiReader (List Nat) (List (List Nat)))
          [] = some o ∧
        o.result = .ok 0 ∧ o.state.current = none ∧ o.state.readers = [] := by
  intro l
  induction l with
  | nil =>
    intro c fuel hwf hfuel
    rcases c with _ | s
    · exact ⟨_, readLoop_drained bsRead listNext fuel ⟨[], none⟩ [] rfl (by omega),
        rfl, rfl, rfl⟩
    · obtain ⟨f, rfl⟩ : ∃ f, fuel = f + 1 := ⟨fuel - 1, by omega⟩
      have hrd : bsRead s [] = (s, [], .ok 0) := by simp [bsRead]
      rw [readLoop_zero_step bsRead listNext f ⟨[], some s⟩ [] s s [] rfl hrd]
      rw [readLoop_drained bsRead listNext f (MultiReader.new listNext ([] : List (List Nat)))
        [] rfl (by omega)]
      exact ⟨_, rfl, rfl, rfl, rfl⟩
  | cons s₀ rest ih =>
    intro c fuel hwf hfuel
    rcases c with _ | s
    · simp at hwf
    · obtain ⟨f, rfl⟩ : ∃ f, fuel = f + 1 := ⟨fuel - 1, by omega⟩
      have hrd : bsRead s [] = (s, [], .ok 0) := by simp [bsRead]
      rw [readLoop_zero_step bsRead listNext f ⟨s₀ :: rest, some s⟩ [] s s [] rfl hrd]
      have hnew : MultiReader.new listNext (s₀ :: rest) =
          (⟨rest, some s₀⟩ : MultiReader (List Nat) (List (List Nat))) := rfl
      obtain ⟨o₀, h₀, hres, hcur₀, hrd₀⟩ :=
        ih (some s₀) f (fun h => Option.noConfusion h) (by simp at hfuel ⊢; omega)
      rw [hnew, h₀]
      exact ⟨_, rfl, hres, hcur₀, hrd₀⟩

/-! ### Driving the reader to exhaustion -/

/-- The caller-side loop of the spec's round-trip property: call
`read` with a fresh `k`-byte buffer until it returns `Ok(0)`,
concatenating the delivered chunks.  `fuel` bounds the number of calls;
`none` is returned on an error, on fuel exhaustion of a call's inner
loop, or when the calls do not reach end-of-stream in time. -/
def readUntilEof (k : Nat) : Nat → MultiReader (List Nat) (List (List Nat)) → Option (List Nat)
  | 0, _ => none
  | fuel + 1, m =>
    match readLoop bsRead listNext (m.readers.length + 2) m (List.replicate k 0) with
    | none => none
    | some o =>
      match o.result with
      | .error _ => none
      | .ok 0 => some []
      | .ok (n + 1) => (readUntilEof k fuel o.state).map (fun rest => o.buf.take (n + 1) ++ rest)

lemma stream_new (sources : List (List Nat)) :
    stream (MultiReader.new listNext sources) = sources.flatten := by
  cases sources <;> simp [MultiReader.new, listNext, stream]

lemma wf_new (sources : List (List Nat)) :
    (MultiReader.new listNext sources).current = none →
      (MultiReader.new listNext sources).readers = [] := by
  cases sources <;> simp [MultiReader.new, listNext]

/-- Reading to exhaustion with any positive buffer size recovers
exactly the remaining stream. -/
lemma readUntilEof_stream (k : Nat) (hk : 1 ≤ k) :
    ∀ (fuel : Nat) (m : MultiReader (List Nat) (List (List Nat))),
      (m.current = none → m.readers = []) → (stream m).length < fuel →
      readUntilEof k fuel m = some (stream m) := by
  intro fuel
  induction fuel with
  | zero => intro m _ hlt; omega
  | succ f ih =>
    intro m hwf hlt
    obtain ⟨l, c⟩ := m
    by_cases hstr : stream ⟨l, c⟩ = []
    · obtain ⟨o, h₀, hres, -, -, -⟩ :=
        readLoop_bs_empty l c (List.replicate k 0) (l.length + 2) hwf hstr le_rfl
      simp only [readUntilEof, h₀, hres, hstr]
    · obtain ⟨o, n, h₀, hres, hnpos, hbufeq, hstr', hlen, s', hcur⟩ :=
        readLoop_bs_pos l c (List.replicate k 0) (l.length + 2) hwf (by simpa using hk)
          hstr le_rfl
      obtain ⟨n', rfl⟩ : ∃ n', n = n' + 1 := ⟨n - 1, by omega⟩
      have hrec : readUntilEof k f o.state = some (stream o.state) := by
        refine ih o.state (fun h => ?_) ?_
        · rw [hcur] at h; cases h
        · rw [hstr']
          have h1 : (stream ⟨l, c⟩).length ≤ f := by omega
          have h2 : 0 < (stream ⟨l, c⟩).length := List.length_pos.mpr hstr
          simp only [List.length_drop]
          omega
      simp only [readUntilEof, h₀, hres, hrec, Option.map_some]
      simp [hbufeq, hstr', List.take_append_drop]

/-- Repeated calls of `read` on the composite reader: `j` successive
calls with the same buffer contents and per-call fuel, collecting each
call's result and the total number of iterator pulls. -/
def readN {σ ι ε : Type} (rd : σ → List Nat → σ × List Nat × Except ε Nat)
    (next : ι → Option σ × ι) (fuel : Nat) (buf : List Nat) :
    Nat → MultiReader σ ι → Option (MultiReader σ ι × List (Except ε Nat) × Nat)
  | 0, m => some (m, [], 0)
  | j + 1, m =>
    match readLoop rd next fuel m buf with
    | none => none
    | some o =>
      match readN rd next fuel buf j o.state with
      | none => none
      | some (m', rs, p) => some (m', o.result :: rs, o.pulls + p)

/-- From a drained reader, every one of `j` successive read calls
returns `Ok(0)`, the state never changes, and the iterator is never
queried. -/
lemma readN_drained {σ ι ε : Type} (rd : σ → List Nat → σ × List Nat × Except ε Nat)
    (next : ι → Option σ × ι) (fuel : Nat) (buf : List Nat) (m : MultiReader σ ι)
    (hcur : m.current = none) (hfuel : 1 ≤ fuel) :
    ∀ j : Nat, readN rd next fuel buf j m = some (m, List.replicate j (.ok 0), 0) := by
  intro j
  induction j with
  | zero => simp [readN]
  | succ i ih =>
    simp only [readN, readLoop_drained rd next fuel m buf hcur hfuel, ih,
      List.replicate_succ]

/-! ### The erroring reader of `tests::test_err_during_read` -/

/-- The test double `MaybeErrReader` from the source's test module: it
wraps an inner byte source, counts its own read calls in `read_no`, and
fails the `(fail_at + 1)`-th call. -/
structure MaybeErrReader where
  reader : List Nat
  read_no : Int
  fail_at : Int
  deriving Repr, DecidableEq

/-- `MaybeErrReader::good`: a reader that never fails (`fail_at = -1`). -/
def MaybeErrReader.good (reader : List Nat) : MaybeErrReader :=
  ⟨reader, 0, -1⟩

/-- `MaybeErrReader::broken`: a reader that fails at read `fail_at + 1`. -/
def MaybeErrReader.broken (reader : List Nat) (fail_at : Int) : MaybeErrReader :=
  ⟨reader, 0, fail_at⟩

/-- The `Read` impl of `MaybeErrReader`: increment `read_no`, fail with
the io error "I'm broken" when `read_no == fail_at + 1`, and otherwise
delegate to the inner source. -/
def maybeErrRead (m : MaybeErrReader) (buf : List Nat) :
    MaybeErrReader × List Nat × Except String Nat :=
  let read_no := m.read_no + 1
  if read_no = m.fail_at + 1 then
    (⟨m.reader, read_no, m.fail_at⟩, buf, .error "I'm broken")
  else
    match bsRead m.reader buf with
    | (r', buf', res) => (⟨r', read_no, m.fail_at⟩, buf', res)

/-- The three sources of `tests::test_err_during_read`: 10 good bytes,
a reader that errors on its 2nd internal read, 10 good bytes. -/
def errScenario : List MaybeErrReader :=
  [MaybeErrReader.good (List.replicate 10 0),
   MaybeErrReader.broken (List.replicate 2048 0) 1,
   MaybeErrReader.good (List.replicate 10 0)]

/-- One composite read call with a fresh 1024-byte buffer, threaded
through `Option` so calls can be chained. -/
def errCall (mo : Option (MultiReader MaybeErrReader (List MaybeErrReader))) :
    Option (ReadOutcome MaybeErrReader (List MaybeErrReader) String) :=
  mo.bind (fun m =>
    readLoop maybeErrRead listNext (m.readers.length + 2) m (List.replicate 1024 0))

/-- First `read` call of the error scenario. -/
def errCall1 : Option (ReadOutcome MaybeErrReader (List MaybeErrReader) String) :=
  errCall (some (MultiReader.new listNext errScenario))

/-- Second `read` call of the error scenario. -/
def errCall2 : Option (ReadOutcome MaybeErrReader (List MaybeErrReader) String) :=
  errCall (errCall1.map (fun o => o.state))

/-- Third `read` call of the error scenario. -/
def errCall3 : Option (ReadOutcome MaybeErrReader (List MaybeErrReader) String) :=
  errCall (errCall2.map (fun o => o.state))

/-! ### Claims -/

/-- C1, counterexample: with buffer size 0 the claim fails.  A single
source holding the byte `7` concatenates to `B = [7]`, yet reading to
exhaustion with a 0-byte buffer returns `Ok(0)` immediately (dropping
the source, see C9) and yields `[]`, not `B`. -/
theorem c1_zero_buffer_counterexample :
    readUntilEof 0 (([[7]] : List (List Nat)).flatten.length + 1)
        (MultiReader.new listNext [[7]]) = some [] ∧
    readUntilEof 0 (([[7]] : List (List Nat)).flatten.length + 1)
        (MultiReader.new listNext [[7]]) ≠ some [7] := by
  constructor
  · decide
  · decide

/-- C1 (amended): for every finite sequence of sources whose
concatenated byte contents equal `B = sources.flatten`, repeatedly
calling `read` until it returns `Ok(0)` yields exactly the bytes of
`B`, in order, for any POSITIVE buffer size used by the caller,
regardless of how `B` is partitioned across the individual sources. -/
theorem c1_read_to_exhaustion_round_trip (sources : List (List Nat)) (k : Nat)
    (hk : 1 ≤ k) :
    readUntilEof k (sources.flatten.length + 1) (MultiReader.new listNext sources) =
      some sources.flatten := by
  have h := readUntilEof_stream k hk (sources.flatten.length + 1)
    (MultiReader.new listNext sources) (wf_new sources)
    (by rw [stream_new]; omega)
  rwa [stream_new sources] at h

/-- C1 witness: `B = [0,1,2,3,4]` split as `[[0,1],[],[2,3,4]]`, buffer
size 2. -/
theorem c1_read_to_exhaustion_round_trip_witness :
    readUntilEof 2 (([[0, 1], [], [2, 3, 4]] : List (List Nat)).flatten.length + 1)
        (MultiReader.new listNext [[0, 1], [], [2, 3, 4]]) = some [0, 1, 2, 3, 4] :=
  c1_read_to_exhaustion_round_trip [[0, 1], [], [2, 3, 4]] 2 (by decide)

/-- C2: if the currently active source's read returns an error, the
composite read returns that same error value unchanged (`.error e`,
no wrapping), performs no iterator pull (`pulls = 0`, `readers`
unchanged), and installs the failed source (in its post-call state
`r'`) as the active source; consequently a subsequent read call
delegates to that same source again — if it fails again, that error is
again returned verbatim with the source still installed. -/
theorem c2_error_returned_verbatim {σ ι ε : Type}
    (rd : σ → List Nat → σ × List Nat × Except ε Nat) (next : ι → Option σ × ι)
    (fuel : Nat) (m : MultiReader σ ι) (buf : List Nat) (r r' : σ) (buf' : List Nat) (e : ε)
    (hcur : m.current = some r) (hrd : rd r buf = (r', buf', .error e)) (hfuel : 1 ≤ fuel) :
    readLoop rd next fuel m buf = some ⟨⟨m.readers, some r'⟩, buf', .error e, 1, 0, 0⟩ ∧
    (∀ (fuel₂ : Nat) (buf₂ : List Nat) (r'' : σ) (buf₂' : List Nat) (e₂ : ε),
      1 ≤ fuel₂ → rd r' buf₂ = (r'', buf₂', .error e₂) →
      readLoop rd next fuel₂ (⟨m.readers, some r'⟩ : MultiReader σ ι) buf₂ =
        some ⟨⟨m.readers, some r''⟩, buf₂', .error e₂, 1, 0, 0⟩) :=
  ⟨readLoop_error_step rd next fuel m buf r r' buf' e hcur hrd hfuel,
   fun fuel₂ buf₂ r'' buf₂' e₂ hfuel₂ hrd₂ =>
     readLoop_error_step rd next fuel₂ ⟨m.readers, some r'⟩ buf₂ r' r'' buf₂' e₂ rfl
       hrd₂ hfuel₂⟩

/-- C2 witness: a reader that fails on its first read, behind an
already-active slot. -/
theorem c2_error_returned_verbatim_witness :
    readLoop maybeErrRead listNext 1
        (⟨[MaybeErrReader.good []], some (MaybeErrReader.broken [] 0)⟩ :
          MultiReader MaybeErrReader (List MaybeErrReader)) [5] =
      some ⟨⟨[MaybeErrReader.good []], some ⟨[], 1, 0⟩⟩, [5], .error "I'm broken", 1, 0, 0⟩ :=
  (c2_error_returned_verbatim maybeErrRead listNext 1
    ⟨[MaybeErrReader.good []], some (MaybeErrReader.broken [] 0)⟩ [5]
    (MaybeErrReader.broken [] 0) ⟨[], 1, 0⟩ [5] "I'm broken" rfl (by decide) (by decide)).1

/-- C3, counterexample: in the scenario `[S1(10 bytes), S2(errors on
its 2nd internal read), S3(10 bytes)]` with buffer 1024, the SECOND
composite read call does not return S2's error — it returns `Ok(1024)`
(S2's first internal read succeeds); the error only surfaces on the
third call, exactly as the source's own test asserts. -/
theorem c3_second_call_is_not_the_error :
    errCall2.map (fun o => o.result) = some (.ok 1024) ∧
    errCall2.map (fun o => o.result) ≠ some (.error "I'm broken") := by
  constructor
  · decide
  · decide

/-- C3 (amended): in the scenario `[S1(10 bytes), S2(errors on its 2nd
internal read), S3(10 bytes)]`, reading with a 1024-byte buffer: the
first call returns `Ok(10)` (a single underlying read, no iterator
pull — it stops at the source boundary without reading into S2); the
second call returns `Ok(1024)` from S2's first internal read; the
third call returns S2's error verbatim; and after the error the reader
has not advanced past S2 (S2, with its internal counter at 2, is still
the active source) and has never called read on S3 (S3 is still queued
with its `read_no` at 0). -/
theorem c3_error_scenario_trace :
    errCall1.map (fun o => o.result) = some (.ok 10) ∧
    errCall1.map (fun o => (o.reads, o.pulls)) = some (1, 0) ∧
    errCall2.map (fun o => o.result) = some (.ok 1024) ∧
    errCall3.map (fun o => o.result) = some (.error "I'm broken") ∧
    errCall3.map (fun o => o.state.current) =
      some (some ⟨List.replicate 1024 0, 2, 1⟩) ∧
    errCall3.map (fun o => o.state.readers) =
      some [MaybeErrReader.good (List.replicate 10 0)] := by
  refine ⟨by decide, by decide, by decide, by decide, by decide, by decide⟩

/-- C4: for every composite reader (any reader type, any iterator
type) and every read call, a successful zero-byte result is only ever
produced with the source sequence exhausted: if a call returns `Ok(0)`
then the reader it leaves behind has `current = none`. -/
theorem c4_ok_zero_only_when_exhausted {σ ι ε : Type}
    (rd : σ → List Nat → σ × List Nat × Except ε Nat) (next : ι → Option σ × ι)
    (fuel : Nat) (m : MultiReader σ ι) (buf : List Nat) (o : ReadOutcome σ ι ε)
    (h : readLoop rd next fuel m buf = some o) (hres : o.result = .ok 0) :
    o.state.current = none :=
  readLoop_ok_zero_drains rd next fuel m buf o h hres

/-- C4 witness: two empty sources are skipped and the `Ok(0)` call ends
with `current = none`. -/
theorem c4_ok_zero_only_when_exhausted_witness :
    ((⟨⟨[], none⟩, [0], .ok 0, 2, 2, 2⟩ :
      ReadOutcome (List Nat) (List (List Nat)) String)).state.current = none :=
  c4_ok_zero_only_when_exhausted bsRead listNext 4 (MultiReader.new listNext [[], []])
    [0] ⟨⟨[], none⟩, [0], .ok 0, 2, 2, 2⟩ (by decide) (by decide)

/-- C5: the drained state is terminal.  Once `current = none`, every
one of `j` subsequent read calls returns `Ok(0)`, the state never
changes, and the iterator producing the sources is never queried again
(`0` pulls in total across all `j` calls). -/
theorem c5_drained_state_terminal {σ ι ε : Type}
    (rd : σ → List Nat → σ × List Nat × Except ε Nat) (next : ι → Option σ × ι)
    (fuel : Nat) (buf : List Nat) (m : MultiReader σ ι)
    (hcur : m.current = none) (hfuel : 1 ≤ fuel) (j : Nat) :
    readN rd next fuel buf j m = some (m, List.replicate j (.ok 0), 0) :=
  readN_drained rd next fuel buf m hcur hfuel j

/-- C5 witness: three successive calls on a drained reader. -/
theorem c5_drained_state_terminal_witness :
    readN bsRead listNext 1 [0] 3 (⟨[], none⟩ : MultiReader (List Nat) (List (List Nat))) =
      some (⟨[], none⟩, List.replicate 3 (.ok 0), 0) :=
  c5_drained_state_terminal bsRead listNext 1 [0] ⟨[], none⟩ rfl (by decide) 3

/-- C6: if the source sequence is empty, or every source in it is
empty, the very first read call returns `Ok(0)` with no error. -/
theorem c6_all_empty_first_read_is_zero (sources : List (List Nat)) (buf : List Nat)
    (hempty : ∀ s ∈ sources, s = []) :
    ∃ o, readLoop bsRead listNext (sources.length + 2)
        (MultiReader.new listNext sources) buf = some o ∧ o.result = .ok 0 := by
  have hnew : MultiReader.new listNext sources =
      (⟨sources.tail, sources.head?⟩ : MultiReader (List Nat) (List (List Nat))) := rfl
  have hwf : sources.head? = none → sources.tail = [] := by
    cases sources <;> simp
  have hstr : stream ⟨sources.tail, sources.head?⟩ = [] := by
    cases sources with
    | nil => simp [stream]
    | cons a l =>
      simp only [stream, List.tail_cons, List.head?_cons, Option.getD_some]
      rw [hempty a (by simp), List.flatten_eq_nil_iff.mpr
        (fun s hs => hempty s (by simp [hs]))]
      rfl
  have hfuel : sources.tail.length + 2 ≤ sources.length + 2 := by
    cases sources <;> simp
  obtain ⟨o, h, hres, -, -, -⟩ :=
    readLoop_bs_empty sources.tail sources.head? buf (sources.length + 2) hwf hstr hfuel
  exact ⟨o, by rw [hnew]; exact h, hres⟩

/-- C6 witness: two empty sources, a one-byte buffer. -/
theorem c6_all_empty_first_read_is_zero_witness :
    ∃ o, readLoop bsRead listNext (([[], []] : List (List Nat)).length + 2)
        (MultiReader.new listNext [[], []]) [7] = some o ∧ o.result = .ok 0 :=
  c6_all_empty_first_read_is_zero [[], []] [7] (by decide)

/-- C7: (i) as soon as a delegated read returns `n > 0` the composite
read returns `Ok(n)` immediately — one underlying read, no iterator
pull, so no attempt to fill the remaining buffer space from a later
source; (ii) in any successful non-empty composite read call the
positive underlying read is unique: every other underlying read the
call performed was a zero-length skip. -/
theorem c7_positive_read_returns_immediately :
    (∀ (σ ι ε : Type) (rd : σ → List Nat → σ × List Nat × Except ε Nat)
        (next : ι → Option σ × ι) (fuel : Nat) (m : MultiReader σ ι)
        (buf : List Nat) (r r' : σ) (buf' : List Nat) (n : Nat),
      m.current = some r → rd r buf = (r', buf', .ok n) → 0 < n → 1 ≤ fuel →
      readLoop rd next fuel m buf = some ⟨⟨m.readers, some r'⟩, buf', .ok n, 1, 0, 0⟩) ∧
    (∀ (σ ι ε : Type) (rd : σ → List Nat → σ × List Nat × Except ε Nat)
        (next : ι → Option σ × ι) (fuel : Nat) (m : MultiReader σ ι)
        (buf : List Nat) (o : ReadOutcome σ ι ε) (n : Nat),
      readLoop rd next fuel m buf = some o → o.result = .ok n → 0 < n →
      o.reads = o.zeroSkips + 1) :=
  ⟨fun _ _ _ rd next fuel m buf r r' buf' n hcur hrd hn hfuel =>
     readLoop_pos_step rd next fuel m buf r r' buf' n hcur hrd hn hfuel,
   fun _ _ _ rd next fuel m buf o n h hres hn =>
     readLoop_pos_unique rd next fuel m buf o n h hres hn⟩

/-- C7 witness: a full source followed by further data returns its
chunk at once, with one read and no pull. -/
theorem c7_positive_read_returns_immediately_witness :
    readLoop bsRead listNext 3
        (⟨[[9]], some [1, 2, 3]⟩ : MultiReader (List Nat) (List (List Nat))) [0, 0] =
      some ⟨⟨[[9]], some [3]⟩, [1, 2], .ok 2, 1, 0, 0⟩ :=
  c7_positive_read_returns_immediately.1 (List Nat) (List (List Nat)) String bsRead
    listNext 3 ⟨[[9]], some [1, 2, 3]⟩ [0, 0] [1, 2, 3] [3] [1, 2] 2 rfl (by decide)
    (by decide) (by decide)

/-- C8: with a finite (list-backed) source sequence every read call
terminates — `readers.length + 2` loop iterations always suffice, for
any reader implementation — and the number of underlying reads it
performs is bounded by the number of zero-length sources it skipped
plus one. -/
theorem c8_read_call_terminates {σ ε : Type}
    (rd : σ → List Nat → σ × List Nat × Except ε Nat)
    (l : List σ) (c : Option σ) (buf : List Nat) :
    ∃ o, readLoop rd listNext (l.length + 2) (⟨l, c⟩ : MultiReader σ (List σ)) buf =
        some o ∧ o.reads ≤ o.zeroSkips + 1 :=
  readLoop_list_total rd l c buf (l.length + 2) le_rfl

/-- C9: a read call with a zero-length buffer, against sources that
(like standard readers) report `Ok(0)` on an empty buffer, walks past
and drops every remaining source, returns `Ok(0)`, and leaves the
reader permanently drained — even though the discarded sources may
still have held unread data. -/
theorem c9_zero_length_buffer_discards_everything
    (m : MultiReader (List Nat) (List (List Nat)))
    (hwf : m.current = none → m.readers = []) :
    ∃ o, readLoop bsRead listNext (m.readers.length + 2) m [] = some o ∧
      o.result = .ok 0 ∧ o.state.current = none ∧ o.state.readers = [] := by
  obtain ⟨l, c⟩ := m
  exact readLoop_bs_nilbuf l c (l.length + 2) hwf le_rfl

/-- C9 witness: the active source holds `[3]` and the queue holds
`[1,2]`; a zero-length read still reports `Ok(0)` and drops both. -/
theorem c9_zero_length_buffer_discards_everything_witness :
    ∃ o, readLoop bsRead listNext
        ((⟨[[1, 2]], some [3]⟩ : MultiReader (List Nat) (List (List Nat))).readers.length + 2)
        ⟨[[1, 2]], some [3]⟩ [] = some o ∧
      o.result = .ok 0 ∧ o.state.current = none ∧ o.state.readers = [] :=
  c9_zero_length_buffer_discards_everything ⟨[[1, 2]], some [3]⟩
    (fun h => Option.noConfusion h)

/-- C10: when the reader is drained (`current = none`) a read call
returns `Ok(0)` having performed no underlying read and no iterator
pull, and both the caller's buffer and the reader state are returned
exactly unchanged. -/
theorem c10_drained_read_is_a_no_op {σ ι ε : Type}
    (rd : σ → List Nat → σ × List Nat × Except ε Nat) (next : ι → Option σ × ι)
    (fuel : Nat) (m : MultiReader σ ι) (buf : List Nat)
    (hcur : m.current = none) (hfuel : 1 ≤ fuel) :
    readLoop rd next fuel m buf = some ⟨m, buf, (.ok 0 : Except ε Nat), 0, 0, 0⟩ :=
  readLoop_drained rd next fuel m buf hcur hfuel

/-- C10 witness: a drained reader with a 2-byte buffer of nines. -/
theorem c10_drained_read_is_a_no_op_witness :
    readLoop bsRead listNext 5 (⟨[], none⟩ : MultiReader (List Nat) (List (List Nat)))
        [9, 9] = some ⟨⟨[], none⟩, [9, 9], .ok 0, 0, 0, 0⟩ :=
  c10_drained_read_is_a_no_op bsRead listNext 5 ⟨[], none⟩ [9, 9] rfl (by decide)
